import Mathlib

/-!
Verification of the TileDB quickstart_sparse example
(src/examples/c_api/quickstart_sparse.c) against its specification.

The repository's source contains only the example driver; the TileDB engine
itself (schema model, lifecycle manager, query engine, coordinate codec) is
not under src/, so the engine is modelled from the specification's words
(each such definition carries a doc comment starting with
`Modelled from the spec:`).  The driver functions (`create_array`,
`write_array`, `read_array`, `mainRun`) are translated directly from the C
source.
-/

namespace TileDB

/-- Scalar values: every dimension and attribute in the example has type
TILEDB_INT32; modelled as unbounded Int (all values in play are tiny, so
32-bit overflow is unreachable and irrelevant to the claims). -/
abbrev Scalar := Int

/-- Byte width of a TILEDB_INT32 scalar (sizeof(int) in the example). -/
def int32Bytes : Nat := 4

/-- Reserved name of the coordinates field (the TILEDB_COORDS constant). -/
def TILEDB_COORDS : String := "__coords"

/-- Modelled from the spec (section 3, Dimension): a named dimension with an
inclusive range [lo, hi] and a tiling extent. -/
structure Dimension where
  name : String
  lo : Scalar
  hi : Scalar
  extent : Scalar
deriving DecidableEq

/-- Modelled from the spec (section 3): cell/tile iteration orders and query
layouts (TILEDB_ROW_MAJOR, TILEDB_COL_MAJOR, TILEDB_UNORDERED). -/
inductive Layout where
  | rowMajor
  | colMajor
  | unordered
deriving DecidableEq

/-- Modelled from the spec (section 3, Schema): storage kind tag. -/
inductive ArrayKind where
  | dense
  | sparse
deriving DecidableEq

/-- Modelled from the spec (section 3, Schema): one domain (ordered list of
dimensions), ordered attributes, storage kind, cell and tile order. -/
structure Schema where
  kind : ArrayKind
  cellOrder : Layout
  tileOrder : Layout
  dims : List Dimension
  attrs : List String
deriving DecidableEq

/-- Modelled from the spec (section 3): extent positive, range non-empty, and
the extent evenly relates to the range. -/
def Dimension.validDim (d : Dimension) : Bool :=
  decide (0 < d.extent) && decide (d.lo ≤ d.hi) &&
    decide ((d.hi - d.lo + 1) % d.extent = 0)

/-- Modelled from the spec (sections 3 and 4.2): create-time schema
validation - domain present with at least one dimension, at least one
attribute, unique names, no attribute may use the reserved coordinates
name, extents consistent with ranges. -/
def Schema.validSchema (s : Schema) : Bool :=
  decide (s.dims ≠ []) && decide (s.attrs ≠ []) &&
    s.dims.all Dimension.validDim &&
    decide ((s.dims.map Dimension.name).Nodup) &&
    decide (s.attrs.Nodup) &&
    s.attrs.all (fun a => decide (a ≠ TILEDB_COORDS))

/-- Modelled from the spec (section 3, Cell): a coordinate tuple (one scalar
per dimension) plus the value of the single attribute bound in the example. -/
structure Cell where
  coords : List Scalar
  value : Scalar
deriving DecidableEq

/-- Modelled from the spec (section 4.5, Coordinate Codec): packs a sequence
of cells' coordinate tuples into one interleaved buffer, tuple-major (all
dimension values of cell 0, then cell 1, ...). -/
def packCoords (tuples : List (List Scalar)) : List Scalar := tuples.flatten

/-- Modelled from the spec (section 4.5, Coordinate Codec): unpacking splits
an interleaved buffer of numDimensions-scalar groups back into tuples; the
r-th tuple occupies buffer positions r*d through r*d + d - 1, exactly how the
C example indexes coords[2 * r] and coords[2 * r + 1]. -/
def unpackCoords (d : Nat) (buf : List Scalar) : List (List Scalar) :=
  (List.range (buf.length / d)).map (fun i => (buf.drop (i * d)).take d)

/-- Modelled from the spec (sections 3 and 6): a subarray is one inclusive
(lo, hi) range per dimension. -/
abbrev Subarray := List (Scalar × Scalar)

/-- Modelled from the spec (section 4.4): a subarray has no reversed bounds
when lo ≤ hi holds on every dimension. -/
def subarrayValid (s : Subarray) : Bool :=
  s.all (fun r => decide (r.1 ≤ r.2))

/-- Modelled from the spec (sections 3 and 6): a subarray carries one
inclusive range per dimension and is narrower than or equal to the domain -
every range lies within its dimension's [lo, hi]; ranges exceeding the domain
are malformed (sections 4.4 and 7). -/
def subarrayInDomain (dims : List Dimension) (s : Subarray) : Bool :=
  decide (s.length = dims.length) &&
    (s.zip dims).all (fun p => decide (p.2.lo ≤ p.1.1) && decide (p.1.2 ≤ p.2.hi))

/-- Modelled from the spec (section 4.4, READ mode): a cell is selected when
its coordinate tuple falls within every dimension's inclusive range. -/
def cellInSubarray (s : Subarray) (coords : List Scalar) : Bool :=
  decide (coords.length = s.length) &&
    (coords.zip s).all (fun p => decide (p.2.1 ≤ p.1) && decide (p.1 ≤ p.2.2))

/-- Lexicographic comparison of coordinate tuples, the row-major order. -/
def lexLE : List Scalar → List Scalar → Bool
  | [], _ => true
  | _ :: _, [] => false
  | x :: xs, y :: ys => if x < y then true else if x = y then lexLE xs ys else false

/-- Modelled from the spec (section 4.4, READ mode): the cell production order
dictated by the query layout; row-major is lexicographic in dimension order,
col-major in reversed dimension order. -/
def layoutLE (lay : Layout) (a b : List Scalar) : Bool :=
  match lay with
  | .rowMajor => lexLE a b
  | .colMajor => lexLE a.reverse b.reverse
  | .unordered => true

/-- Modelled from the spec (sections 3 and 9): a fragment is an internally
persisted batch of writes. -/
abbrev Fragment := List Cell

/-- Modelled from the spec (section 3, Array): persisted array state - its
immutable schema and the fragments written so far. -/
structure ArrayData where
  schema : Schema
  fragments : List Fragment
deriving DecidableEq

/-- All persisted cells of an array, fragment by fragment. -/
def ArrayData.allCells (arr : ArrayData) : List Cell := arr.fragments.flatten

/-- Modelled from the spec (section 4.4, WRITE mode, layout UNORDERED): the
engine unpacks the interleaved coordinates buffer, pairs the i-th coordinate
tuple with the i-th attribute value (the index-alignment contract), and
persists the resulting cells as a new fragment, in no required order. -/
def writeUnordered (arr : ArrayData) (coordsBuf attrBuf : List Scalar) : ArrayData :=
  ⟨arr.schema,
    arr.fragments ++
      [List.zipWith (fun t v => Cell.mk t v) (unpackCoords arr.schema.dims.length coordsBuf) attrBuf]⟩

/-- Modelled from the spec (section 4.4, READ mode): the full result set of a
read - exactly the persisted cells inside the subarray, sorted into the
order dictated by the layout. -/
def readResult (arr : ArrayData) (lay : Layout) (s : Subarray) : List Cell :=
  List.insertionSort (fun c1 c2 => layoutLE lay c1.coords c2.coords = true)
    (arr.allCells.filter (fun c => cellInSubarray s c.coords))

instance (lay : Layout) :
    DecidableRel (fun c1 c2 : Cell => layoutLE lay c1.coords c2.coords = true) :=
  fun c1 c2 => instDecidableEqBool (layoutLE lay c1.coords c2.coords) true

/-- Modelled from the spec (section 4.4): query completion status. -/
inductive QueryStatus where
  | completed
  | incomplete
  | failed
deriving DecidableEq

/-- Modelled from the spec (sections 3 and 4.4): a read query bound to an
array, with a layout, a subarray and the saved resumption cursor (number of
result cells already produced by earlier submits). -/
structure ReadQuery where
  arr : ArrayData
  layout : Layout
  sub : Subarray
  cursor : Nat
deriving DecidableEq

/-- Result of one read submit: the status, the produced cells, the contents
written into the two bound buffers, the buffers' size fields rewritten to the
actual bytes produced, and the query with its advanced cursor. -/
structure ReadOutput where
  status : QueryStatus
  cells : List Cell
  dataBuf : List Scalar
  coordsBuf : List Scalar
  dataSize : Nat
  coordsSize : Nat
  next : ReadQuery
deriving DecidableEq

/-- Number of whole cells that fit in the two bound buffers: the attribute
buffer holds one INT32 per cell, the coordinates buffer holds d INT32s per
cell. -/
def capCells (d dataCap coordsCap : Nat) : Nat :=
  min (dataCap / int32Bytes) (coordsCap / (d * int32Bytes))

/-- The slice of the result set produced by the next submit: what follows the
cursor, truncated to the buffer capacity. -/
def chunkOf (q : ReadQuery) (dataCap coordsCap : Nat) : List Cell :=
  ((readResult q.arr q.layout q.sub).drop q.cursor).take
    (capCells q.arr.schema.dims.length dataCap coordsCap)

/-- Modelled from the spec (sections 4.4 and 7, READ mode submit): a
malformed subarray - reversed bounds or out-of-domain-range bounds - makes
the query FAILED; otherwise the engine fills the bound buffers with the next
chunk of the result set in layout order, rewrites each buffer's size field to
the actual bytes produced, advances the saved cursor, and reports COMPLETED
exactly when the whole result set has been produced, INCOMPLETE otherwise. -/
def readSubmit (q : ReadQuery) (dataCap coordsCap : Nat) : ReadOutput :=
  if subarrayValid q.sub && subarrayInDomain q.arr.schema.dims q.sub then
    ⟨if (readResult q.arr q.layout q.sub).length ≤ q.cursor + (chunkOf q dataCap coordsCap).length
        then .completed else .incomplete,
      chunkOf q dataCap coordsCap,
      (chunkOf q dataCap coordsCap).map Cell.value,
      packCoords ((chunkOf q dataCap coordsCap).map Cell.coords),
      (chunkOf q dataCap coordsCap).length * int32Bytes,
      (packCoords ((chunkOf q dataCap coordsCap).map Cell.coords)).length * int32Bytes,
      ⟨q.arr, q.layout, q.sub, q.cursor + (chunkOf q dataCap coordsCap).length⟩⟩
  else
    ⟨.failed, [], [], [], 0, 0, q⟩

/-- Repeatedly submit a read query (the INCOMPLETE/resume retry pattern),
concatenating the cells produced by each submit, with a fuel bound. -/
def drainRead (dataCap coordsCap : Nat) : Nat → ReadQuery → List Cell
  | 0, _ => []
  | fuel + 1, q =>
    match (readSubmit q dataCap coordsCap).status with
    | .completed => (readSubmit q dataCap coordsCap).cells
    | .incomplete =>
        (readSubmit q dataCap coordsCap).cells ++
          drainRead dataCap coordsCap fuel (readSubmit q dataCap coordsCap).next
    | .failed => []

/-- Predicate used by the estimator: do two inclusive scalar intervals
intersect. -/
def intervalsOverlap (a b : Scalar × Scalar) : Bool :=
  decide (a.1 ≤ b.2) && decide (b.1 ≤ a.2)

/-- Coordinate values of dimension i across all cells of a fragment. -/
def coordsAt (f : Fragment) (i : Nat) : List Scalar :=
  f.filterMap (fun c => c.coords[i]?)

/-- Modelled from the spec (section 4.4): the fragment metadata test - a
fragment overlaps a subarray when, on every dimension, the fragment's
minimum/maximum bounding coordinates intersect the subarray's range. -/
def fragOverlaps (f : Fragment) (s : Subarray) : Bool :=
  !f.isEmpty &&
    (List.range s.length).all (fun i =>
      match coordsAt f i with
      | [] => false
      | x :: xs => intervalsOverlap (xs.foldl min x, xs.foldl max x) (s.getD i (0, 0)))

/-- Bytes a single cell contributes to a field: d scalars for the reserved
coordinates field, one scalar for an attribute (all fields are INT32). -/
def bytesPerCell (sch : Schema) (field : String) : Nat :=
  if field = TILEDB_COORDS then sch.dims.length * int32Bytes else int32Bytes

/-- Modelled from the spec (section 4.4, estimateMaxBufferSize): scans the
per-fragment bounding-coordinate metadata and sums the worst-case byte counts
of every fragment overlapping the subarray. -/
def estimateMaxBufferSize (arr : ArrayData) (field : String) (s : Subarray) : Nat :=
  (arr.fragments.map
    (fun f => if fragOverlaps f s then f.length * bytesPerCell arr.schema field else 0)).sum

/-- Modelled from the spec (sections 4.3 and 6): the object kind reported by
the object-type probe. -/
inductive ObjectType where
  | ARRAY
  | GROUP
  | NONE
deriving DecidableEq

/-- Modelled from the spec (section 4.3): what may occupy a storage
location. -/
inductive StoredObject where
  | arrayObj (schema : Schema) (fragments : List Fragment)
  | groupObj
deriving DecidableEq

/-- Modelled from the spec (section 4.3): the persistent store, mapping
storage locations to objects. -/
abbrev Store := List (String × StoredObject)

/-- Look up the object persisted at a location. -/
def lookupStore (st : Store) (loc : String) : Option StoredObject :=
  (st.find? (fun p => decide (p.1 = loc))).map Prod.snd

/-- Modelled from the spec (section 4.3, objectType): pure metadata probe with
no side effects. -/
def objectType (st : Store) (loc : String) : ObjectType :=
  match lookupStore st loc with
  | some (.arrayObj _ _) => .ARRAY
  | some .groupObj => .GROUP
  | none => .NONE

/-- Modelled from the spec (section 7): lifecycle error taxonomy used by
create. -/
inductive LifecycleError where
  | alreadyExists
  | schemaError
  | notFound
deriving DecidableEq

/-- Modelled from the spec (section 4.3, create): persists the schema with
empty data; fails with AlreadyExistsError if the location is occupied, and
with SchemaError if create-time validation rejects the schema. -/
def arrayCreate (st : Store) (loc : String) (sch : Schema) : Except LifecycleError Store :=
  if (lookupStore st loc).isSome then .error .alreadyExists
  else if sch.validSchema then .ok ((loc, .arrayObj sch []) :: st)
  else .error .schemaError

/-- Replace the object persisted at a location. -/
def updateStore (st : Store) (loc : String) (obj : StoredObject) : Store :=
  st.map (fun p => if p.1 = loc then (loc, obj) else p)

/-- Name of array (quickstart_sparse.c line 43). -/
def array_name : String := "quickstart_sparse"

/-- Name of the single attribute of the example (quickstart_sparse.c line 68). -/
def attr_a : String := "a"

/-- Name of the first dimension (quickstart_sparse.c line 55). -/
def dim_rows : String := "rows"

/-- Name of the second dimension (quickstart_sparse.c line 58). -/
def dim_cols : String := "cols"

/-- Schema built by create_array (quickstart_sparse.c lines 50-76): a 4x4
sparse array, dimensions rows and cols over [1,4] with extent 4, row-major
cell and tile order, single INT32 attribute a. -/
def quickstartSchema : Schema :=
  ⟨.sparse, .rowMajor, .rowMajor,
    [⟨dim_rows, 1, 4, 4⟩, ⟨dim_cols, 1, 4, 4⟩], [attr_a]⟩

/-- Embedding of create_array (quickstart_sparse.c lines 45-88); the C code
ignores the return code, so a failed create leaves the store unchanged. -/
def create_array (st : Store) : Store :=
  match arrayCreate st array_name quickstartSchema with
  | .ok st1 => st1
  | .error _ => st

/-- Embedding of write_array (quickstart_sparse.c lines 90-123): an UNORDERED
write of cells (1,1), (2,4), (2,3) with data 1, 2, 3, coordinates interleaved
as {1, 1, 2, 4, 2, 3}. -/
def write_array (st : Store) : Store :=
  match lookupStore st array_name with
  | some (.arrayObj sch frags) =>
      updateStore st array_name
        (.arrayObj sch (writeUnordered ⟨sch, frags⟩ [1, 1, 2, 4, 2, 3] [1, 2, 3]).fragments)
  | _ => st

/-- Subarray of read_array (quickstart_sparse.c line 136): rows in [1,2] and
cols in [2,4]. -/
def readSubarray : Subarray := [(1, 2), (2, 4)]

/-- Result of one run of read_array: the store (unchanged) and the printed
(row, col, value) lines. -/
structure ReadRun where
  store : Store
  printed : List (Scalar × Scalar × Scalar)
deriving DecidableEq

/-- Embedding of read_array (quickstart_sparse.c lines 125-177): sizes both
buffers with tiledb_array_max_buffer_size over the subarray, submits a
ROW_MAJOR read, then prints coords[2r], coords[2r+1], data[r] for each of the
data_size / sizeof(int) result cells. -/
def read_array (st : Store) : ReadRun :=
  match lookupStore st array_name with
  | some (.arrayObj sch frags) =>
      let arr : ArrayData := ⟨sch, frags⟩
      let dataCap := estimateMaxBufferSize arr attr_a readSubarray
      let coordsCap := estimateMaxBufferSize arr TILEDB_COORDS readSubarray
      let out := readSubmit ⟨arr, .rowMajor, readSubarray, 0⟩ dataCap coordsCap
      ⟨st, (List.range (out.dataSize / int32Bytes)).map
        (fun r => (out.coordsBuf.getD (2 * r) 0, out.coordsBuf.getD (2 * r + 1) 0,
          out.dataBuf.getD r 0))⟩
  | _ => ⟨st, []⟩

/-- Result of one run of main: final store, printed lines, and whether the
create_array/write_array branch was taken. -/
structure MainRun where
  store : Store
  printed : List (Scalar × Scalar × Scalar)
  createdAndWrote : Bool
deriving DecidableEq

/-- Embedding of main (quickstart_sparse.c lines 179-195): probe the object
type; if it is not TILEDB_ARRAY, create and write; always read. -/
def mainRun (st : Store) : MainRun :=
  let t := objectType st array_name
  let st1 := if t = ObjectType.ARRAY then st else write_array (create_array st)
  let r := read_array st1
  ⟨r.store, r.printed, decide (t ≠ ObjectType.ARRAY)⟩

/-- Generic single read operation against the store (open array at loc, size
buffers, submit once): used to state read idempotence. -/
def readOp (st : Store) (loc : String) (lay : Layout) (sub : Subarray)
    (dataCap coordsCap : Nat) : Store × ReadOutput :=
  match lookupStore st loc with
  | some (.arrayObj sch frags) =>
      (st, readSubmit ⟨⟨sch, frags⟩, lay, sub, 0⟩ dataCap coordsCap)
  | _ => (st, ⟨.failed, [], [], [], 0, 0, ⟨⟨⟨.sparse, .rowMajor, .rowMajor, [], []⟩, []⟩, lay, sub, 0⟩⟩)

/-- The array state after the example's write: one fragment holding the three
cells (1,1)->1, (2,4)->2, (2,3)->3. -/
def writtenArray : ArrayData :=
  writeUnordered ⟨quickstartSchema, []⟩ [1, 1, 2, 4, 2, 3] [1, 2, 3]

/-! Helper lemmas about the coordinate codec. -/

theorem flatten_length_const {d : Nat} :
    ∀ {L : List (List Scalar)}, (∀ l ∈ L, l.length = d) → L.flatten.length = L.length * d := by
  intro L
  induction L with
  | nil => intro _; simp
  | cons t ts ih =>
    intro h
    have ht : t.length = d := h t (by simp)
    have hts := ih (fun l hl => h l (by simp [hl]))
    simp only [List.flatten_cons, List.length_append, List.length_cons, ht, hts]
    ring

theorem flatten_drop_take {d : Nat} :
    ∀ (ts : List (List Scalar)), (∀ t ∈ ts, t.length = d) →
      ∀ (i : Nat) (hi : i < ts.length), ((ts.flatten.drop (i * d)).take d) = ts[i] := by
  intro ts
  induction ts with
  | nil => intro _ i hi; simp at hi
  | cons t rest ih =>
    intro hlen i hi
    have ht : t.length = d := hlen t (by simp)
    cases i with
    | zero =>
      simp only [Nat.zero_mul, List.drop_zero, List.flatten_cons, List.getElem_cons_zero]
      rw [← ht, List.take_left]
    | succ j =>
      have harith : (j + 1) * d = t.length + j * d := by rw [ht]; ring
      simp only [List.flatten_cons, List.getElem_cons_succ]
      rw [harith, List.drop_append]
      exact ih (fun l hl => hlen l (by simp [hl])) j (by simpa using hi)

theorem unpackCoords_getElem (d : Nat) (buf : List Scalar) (i : Nat)
    (hi : i < buf.length / d) :
    (unpackCoords d buf)[i]? = some ((buf.drop (i * d)).take d) := by
  unfold unpackCoords
  rw [List.getElem?_map, List.getElem?_range hi]
  rfl

/-! Helper lemmas about read submission. -/

theorem readSubmit_valid (q : ReadQuery) (dataCap coordsCap : Nat)
    (hv : subarrayValid q.sub = true)
    (hd : subarrayInDomain q.arr.schema.dims q.sub = true) :
    readSubmit q dataCap coordsCap =
      ⟨if (readResult q.arr q.layout q.sub).length ≤
            q.cursor + (chunkOf q dataCap coordsCap).length
          then .completed else .incomplete,
        chunkOf q dataCap coordsCap,
        (chunkOf q dataCap coordsCap).map Cell.value,
        packCoords ((chunkOf q dataCap coordsCap).map Cell.coords),
        (chunkOf q dataCap coordsCap).length * int32Bytes,
        (packCoords ((chunkOf q dataCap coordsCap).map Cell.coords)).length * int32Bytes,
        ⟨q.arr, q.layout, q.sub, q.cursor + (chunkOf q dataCap coordsCap).length⟩⟩ := by
  rw [readSubmit, if_pos (by simp [hv, hd])]

theorem readSubmit_failed (q : ReadQuery) (dataCap coordsCap : Nat)
    (h : (subarrayValid q.sub && subarrayInDomain q.arr.schema.dims q.sub) = false) :
    readSubmit q dataCap coordsCap = ⟨.failed, [], [], [], 0, 0, q⟩ := by
  rw [readSubmit, if_neg (by rw [h]; simp)]

theorem readSubmit_status (q : ReadQuery) (dataCap coordsCap : Nat)
    (hv : subarrayValid q.sub = true)
    (hd : subarrayInDomain q.arr.schema.dims q.sub = true) :
    (readSubmit q dataCap coordsCap).status =
      if (readResult q.arr q.layout q.sub).length ≤
          q.cursor + (chunkOf q dataCap coordsCap).length
        then .completed else .incomplete := by
  rw [readSubmit_valid q dataCap coordsCap hv hd]

theorem readSubmit_cells (q : ReadQuery) (dataCap coordsCap : Nat)
    (hv : subarrayValid q.sub = true)
    (hd : subarrayInDomain q.arr.schema.dims q.sub = true) :
    (readSubmit q dataCap coordsCap).cells = chunkOf q dataCap coordsCap := by
  rw [readSubmit_valid q dataCap coordsCap hv hd]

theorem readSubmit_next (q : ReadQuery) (dataCap coordsCap : Nat)
    (hv : subarrayValid q.sub = true)
    (hd : subarrayInDomain q.arr.schema.dims q.sub = true) :
    (readSubmit q dataCap coordsCap).next =
      ⟨q.arr, q.layout, q.sub, q.cursor + (chunkOf q dataCap coordsCap).length⟩ := by
  rw [readSubmit_valid q dataCap coordsCap hv hd]

/-- C4 (confirmed): the coordinate codec packs N tuples into a buffer of
N * numDimensions scalars laid out tuple-major (the slice at offset i * d of
width d is exactly tuple i), and unpacking the packed buffer returns the
original tuple sequence (round-trip identity). -/
theorem claim4_codec_tuple_major (d : Nat) (tuples : List (List Scalar))
    (hd : 0 < d) (hlen : ∀ t ∈ tuples, t.length = d) :
    (packCoords tuples).length = tuples.length * d ∧
    unpackCoords d (packCoords tuples) = tuples ∧
    ∀ (i : Nat) (hi : i < tuples.length),
      ((packCoords tuples).drop (i * d)).take d = tuples[i] := by
  have hflat : (packCoords tuples).length = tuples.length * d := flatten_length_const hlen
  refine ⟨hflat, ?_, fun i hi => flatten_drop_take tuples hlen i hi⟩
  have hn : (packCoords tuples).length / d = tuples.length := by
    rw [hflat, Nat.mul_div_cancel _ hd]
  apply List.ext_getElem
  · simp [unpackCoords, hn]
  · intro i h1 h2
    unfold unpackCoords at h1 ⊢
    simp only [List.getElem_map, List.getElem_range]
    exact flatten_drop_take tuples hlen i h2

/-- C4 witness: the codec claim instantiated at the example's own three cells
(1,1), (2,4), (2,3) over two dimensions. -/
theorem claim4_witness :
    (packCoords [[1, 1], [2, 4], [2, 3]]).length = 3 * 2 ∧
    unpackCoords 2 (packCoords [[1, 1], [2, 4], [2, 3]]) = [[1, 1], [2, 4], [2, 3]] ∧
    ∀ (i : Nat) (hi : i < ([[1, 1], [2, 4], [2, 3]] : List (List Scalar)).length),
      ((packCoords [[1, 1], [2, 4], [2, 3]]).drop (i * 2)).take 2 =
        ([[1, 1], [2, 4], [2, 3]] : List (List Scalar))[i] :=
  claim4_codec_tuple_major 2 [[1, 1], [2, 4], [2, 3]] (by decide) (by decide)

/-- C3 (confirmed): an UNORDERED write of N coordinate tuples and N attribute
values persists, at every index i < N, the cell whose coordinate tuple is the
i-th d-scalar group of the coordinates buffer and whose value is the i-th
attribute value; the pairing is strictly by input index. -/
theorem claim3_index_alignment (arr : ArrayData) (coordsBuf attrBuf : List Scalar) (n : Nat)
    (hd : 0 < arr.schema.dims.length)
    (hc : coordsBuf.length = n * arr.schema.dims.length)
    (ha : attrBuf.length = n) :
    ∀ i, i < n →
      ((writeUnordered arr coordsBuf attrBuf).fragments.getD arr.fragments.length [])[i]? =
        some ⟨(coordsBuf.drop (i * arr.schema.dims.length)).take arr.schema.dims.length,
          attrBuf.getD i 0⟩ ∧
      (⟨(coordsBuf.drop (i * arr.schema.dims.length)).take arr.schema.dims.length,
        attrBuf.getD i 0⟩ : Cell) ∈ (writeUnordered arr coordsBuf attrBuf).allCells := by
  intro i hi
  have hfrag : (writeUnordered arr coordsBuf attrBuf).fragments.getD arr.fragments.length [] =
      List.zipWith (fun t v => Cell.mk t v)
        (unpackCoords arr.schema.dims.length coordsBuf) attrBuf := by
    unfold writeUnordered
    have hlt : arr.fragments.length <
        (arr.fragments ++ [List.zipWith (fun t v => Cell.mk t v)
          (unpackCoords arr.schema.dims.length coordsBuf) attrBuf]).length := by
      simp
    rw [List.getD_eq_getElem _ _ hlt]
    exact List.getElem_concat_length _ _ _ rfl hlt
  have hdiv : coordsBuf.length / arr.schema.dims.length = n := by
    rw [hc, Nat.mul_div_cancel _ hd]
  have htup : (unpackCoords arr.schema.dims.length coordsBuf)[i]? =
      some ((coordsBuf.drop (i * arr.schema.dims.length)).take arr.schema.dims.length) :=
    unpackCoords_getElem _ _ i (by rw [hdiv]; exact hi)
  have hval : attrBuf[i]? = some (attrBuf.getD i 0) := by
    have hilt : i < attrBuf.length := by rw [ha]; exact hi
    rw [List.getElem?_eq_getElem hilt, List.getD_eq_getElem _ _ hilt]
  have hcell : ((writeUnordered arr coordsBuf attrBuf).fragments.getD arr.fragments.length [])[i]? =
      some ⟨(coordsBuf.drop (i * arr.schema.dims.length)).take arr.schema.dims.length,
        attrBuf.getD i 0⟩ := by
    rw [hfrag, List.getElem?_zipWith, htup, hval]
  refine ⟨hcell, ?_⟩
  rw [hfrag] at hcell
  obtain ⟨hlt2, heq⟩ := List.getElem?_eq_some_iff.mp hcell
  rw [ArrayData.allCells, List.mem_flatten]
  refine ⟨_, ?_, heq ▸ List.getElem_mem hlt2⟩
  unfold writeUnordered
  simp

/-- C3 witness: index alignment instantiated at the example's write buffers
coords = {1,1,2,4,2,3}, data = {1,2,3}, at index 0. -/
theorem claim3_witness :
    ((writeUnordered ⟨quickstartSchema, []⟩ [1, 1, 2, 4, 2, 3] [1, 2, 3]).fragments.getD 0 [])[0]? =
      some ⟨(([1, 1, 2, 4, 2, 3] : List Scalar).drop (0 * 2)).take 2,
        ([1, 2, 3] : List Scalar).getD 0 0⟩ ∧
    (⟨(([1, 1, 2, 4, 2, 3] : List Scalar).drop (0 * 2)).take 2,
      ([1, 2, 3] : List Scalar).getD 0 0⟩ : Cell) ∈
      (writeUnordered ⟨quickstartSchema, []⟩ [1, 1, 2, 4, 2, 3] [1, 2, 3]).allCells :=
  claim3_index_alignment ⟨quickstartSchema, []⟩ [1, 1, 2, 4, 2, 3] [1, 2, 3] 3
    (by decide) (by decide) (by decide) 0 (by decide)

/-- C1 (confirmed): writing cells (1,1)->1, (2,4)->2, (2,3)->3 under
UNORDERED layout and reading back subarray rows in [1,2], cols in [2,4] under
ROW_MAJOR layout yields exactly (2,3)->3 then (2,4)->2, and never a cell with
coordinates (1,1). -/
theorem claim1_roundtrip :
    (read_array (write_array (create_array []))).printed =
      [((2 : Scalar), (3 : Scalar), (3 : Scalar)), ((2 : Scalar), (4 : Scalar), (2 : Scalar))] ∧
    (read_array (write_array (create_array []))).printed.all
      (fun t => decide (¬ (t.1 = 1 ∧ t.2.1 = 1))) = true := by decide

/-- C6 (confirmed): a read submit whose subarray has reversed bounds on some
dimension returns status FAILED, never COMPLETED. -/
theorem claim6_reversed_bounds_fail (q : ReadQuery) (dataCap coordsCap : Nat)
    (hrev : q.sub.any (fun r => decide (r.2 < r.1)) = true) :
    (readSubmit q dataCap coordsCap).status = QueryStatus.failed ∧
    (readSubmit q dataCap coordsCap).status ≠ QueryStatus.completed := by
  have hv : subarrayValid q.sub = false := by
    rw [List.any_eq_true] at hrev
    obtain ⟨r, hr, hlt⟩ := hrev
    have hlt2 : r.2 < r.1 := of_decide_eq_true hlt
    cases h : subarrayValid q.sub with
    | false => rfl
    | true =>
      exfalso
      rw [subarrayValid, List.all_eq_true] at h
      exact absurd (of_decide_eq_true (h r hr)) (not_le.mpr hlt2)
  rw [readSubmit_failed q dataCap coordsCap (by rw [hv, Bool.false_and])]
  simp

/-- C6 witness: a reversed subarray [2,1] on the rows dimension fails. -/
theorem claim6_witness :
    (readSubmit ⟨⟨quickstartSchema, []⟩, Layout.rowMajor, [((2 : Scalar), (1 : Scalar))], 0⟩
      4 8).status = QueryStatus.failed ∧
    (readSubmit ⟨⟨quickstartSchema, []⟩, Layout.rowMajor, [((2 : Scalar), (1 : Scalar))], 0⟩
      4 8).status ≠ QueryStatus.completed :=
  claim6_reversed_bounds_fail _ 4 8 (by decide)

/-- C8 (confirmed): whenever create succeeds at a location with a schema
having at least one dimension and one attribute, the object-type probe at
that location subsequently reports ARRAY. -/
theorem claim8_create_then_array (st : Store) (loc : String) (sch : Schema) (st1 : Store)
    (_hdim : sch.dims ≠ []) (_hattr : sch.attrs ≠ [])
    (h : arrayCreate st loc sch = Except.ok st1) :
    objectType st1 loc = ObjectType.ARRAY := by
  unfold arrayCreate at h
  split at h
  · simp at h
  · split at h
    · rw [Except.ok.injEq] at h
      subst h
      unfold objectType lookupStore
      rw [List.find?_cons_of_pos _ (by simp)]
      rfl
    · simp at h

/-- C8 witness: creating the quickstart schema on an empty store makes the
probe report ARRAY at quickstart_sparse. -/
theorem claim8_witness :
    objectType [(array_name, StoredObject.arrayObj quickstartSchema [])] array_name =
      ObjectType.ARRAY :=
  claim8_create_then_array [] array_name quickstartSchema
    [(array_name, StoredObject.arrayObj quickstartSchema [])]
    (by decide) (by decide) (by rfl)

/-- C9 (confirmed): a read query has no side effect on the store, so
submitting the same read (same location, layout, subarray, capacities) twice
in a row against an unmodified array produces identical outputs - identical
buffers and identical returned sizes. -/
theorem claim9_read_idempotent (st : Store) (loc : String) (lay : Layout) (sub : Subarray)
    (dataCap coordsCap : Nat) :
    (readOp st loc lay sub dataCap coordsCap).1 = st ∧
    (readOp (readOp st loc lay sub dataCap coordsCap).1 loc lay sub dataCap coordsCap).2 =
      (readOp st loc lay sub dataCap coordsCap).2 := by
  have h1 : (readOp st loc lay sub dataCap coordsCap).1 = st := by
    unfold readOp
    split
    · rfl
    · rfl
  exact ⟨h1, by rw [h1]⟩

/-- C10 counterexample: on a fresh run (empty store) the program prints two
lines, not three - only cells (2,3) and (2,4) fall inside the read subarray. -/
theorem claim10_counterexample : ¬ (mainRun []).printed.length = 3 := by decide

/-- C10 (amended): create_array and write_array run exactly when the probe on
quickstart_sparse reports something other than ARRAY; a second run performs no
create and no write, leaves the store unchanged, and prints the same TWO-line
output as the first run. -/
theorem claim10_amended :
    (∀ st : Store, (mainRun st).createdAndWrote = true ↔
      objectType st array_name ≠ ObjectType.ARRAY) ∧
    (mainRun ((mainRun []).store)).createdAndWrote = false ∧
    (mainRun ((mainRun []).store)).store = (mainRun []).store ∧
    (mainRun ((mainRun []).store)).printed = (mainRun []).printed ∧
    (mainRun []).printed.length = 2 := by
  refine ⟨?_, by decide, by decide, by decide, by decide⟩
  intro st
  simp [mainRun]

/-! Helper lemmas towards the estimator safety property. -/

theorem foldl_min_le_init (xs : List Scalar) : ∀ (x : Scalar), xs.foldl min x ≤ x := by
  induction xs with
  | nil => intro x; exact le_refl x
  | cons y ys ih => intro x; exact le_trans (ih (min x y)) (min_le_left x y)

theorem le_foldl_max_init (xs : List Scalar) : ∀ (x : Scalar), x ≤ xs.foldl max x := by
  induction xs with
  | nil => intro x; exact le_refl x
  | cons y ys ih => intro x; exact le_trans (le_max_left x y) (ih (max x y))

theorem foldl_min_le {v x : Scalar} {xs : List Scalar} (h : v = x ∨ v ∈ xs) :
    xs.foldl min x ≤ v := by
  induction xs generalizing x with
  | nil =>
    rcases h with rfl | hm
    · exact le_refl v
    · simp at hm
  | cons y ys ih =>
    rcases h with rfl | hm
    · exact le_trans (foldl_min_le_init ys (min v y)) (min_le_left v y)
    · rcases List.mem_cons.mp hm with rfl | hys
      · exact le_trans (foldl_min_le_init ys (min x v)) (min_le_right x v)
      · exact ih (Or.inr hys)

theorem le_foldl_max {v x : Scalar} {xs : List Scalar} (h : v = x ∨ v ∈ xs) :
    v ≤ xs.foldl max x := by
  induction xs generalizing x with
  | nil =>
    rcases h with rfl | hm
    · exact le_refl v
    · simp at hm
  | cons y ys ih =>
    rcases h with rfl | hm
    · exact le_trans (le_max_left v y) (le_foldl_max_init ys (max v y))
    · rcases List.mem_cons.mp hm with rfl | hys
      · exact le_trans (le_max_right x v) (le_foldl_max_init ys (max x v))
      · exact ih (Or.inr hys)

theorem zip_all_getElem {α β : Type} {p : α × β → Bool} :
    ∀ {as : List α} {bs : List β}, (as.zip bs).all p = true →
      ∀ (i : Nat) (ha : i < as.length) (hb : i < bs.length), p (as[i], bs[i]) = true := by
  intro as
  induction as with
  | nil =>
    intro bs h i ha hb
    simp at ha
  | cons a as ih =>
    intro bs h i ha hb
    cases bs with
    | nil => simp at hb
    | cons b bs =>
      simp only [List.zip_cons_cons, List.all_cons, Bool.and_eq_true] at h
      cases i with
      | zero => simpa using h.1
      | succ j => exact ih h.2 j (by simpa using ha) (by simpa using hb)

theorem cellInSubarray_length {s : Subarray} {coords : List Scalar}
    (h : cellInSubarray s coords = true) : coords.length = s.length := by
  rw [cellInSubarray, Bool.and_eq_true] at h
  exact of_decide_eq_true h.1

theorem cellInSubarray_bounds {s : Subarray} {coords : List Scalar}
    (h : cellInSubarray s coords = true) (i : Nat) (hi : i < s.length) :
    ∃ (hc : i < coords.length), s[i].1 ≤ coords[i] ∧ coords[i] ≤ s[i].2 := by
  have hlen : coords.length = s.length := cellInSubarray_length h
  have hc : i < coords.length := by omega
  refine ⟨hc, ?_⟩
  rw [cellInSubarray, Bool.and_eq_true] at h
  have hp := zip_all_getElem h.2 i hc hi
  rw [Bool.and_eq_true] at hp
  exact ⟨of_decide_eq_true hp.1, of_decide_eq_true hp.2⟩

theorem fragOverlaps_of_mem {f : Fragment} {s : Subarray} {c : Cell}
    (hc : c ∈ f) (hin : cellInSubarray s c.coords = true) :
    fragOverlaps f s = true := by
  rw [fragOverlaps, Bool.and_eq_true]
  constructor
  · cases f with
    | nil => simp at hc
    | cons a l => rfl
  · rw [List.all_eq_true]
    intro i hi
    have hi2 : i < s.length := List.mem_range.mp hi
    obtain ⟨hci, hlo, hhi⟩ := cellInSubarray_bounds hin i hi2
    have hv : c.coords[i]? = some c.coords[i] := List.getElem?_eq_getElem hci
    have hmem : c.coords[i] ∈ coordsAt f i := List.mem_filterMap.mpr ⟨c, hc, hv⟩
    cases hca : coordsAt f i with
    | nil =>
      rw [hca] at hmem
      simp at hmem
    | cons x xs =>
      rw [hca] at hmem
      have hor : c.coords[i] = x ∨ c.coords[i] ∈ xs := by
        rcases List.mem_cons.mp hmem with h1 | h1
        · exact Or.inl h1
        · exact Or.inr h1
      simp only [hca]
      rw [List.getD_eq_getElem _ _ hi2, intervalsOverlap, Bool.and_eq_true]
      exact ⟨decide_eq_true (le_trans (foldl_min_le hor) hhi),
        decide_eq_true (le_trans hlo (le_foldl_max hor))⟩

theorem length_filter_flatten (p : Cell → Bool) :
    ∀ (L : List Fragment),
      (L.flatten.filter p).length = (L.map (fun f => (f.filter p).length)).sum := by
  intro L
  induction L with
  | nil => simp
  | cons f fs ih =>
    simp only [List.flatten_cons, List.filter_append, List.length_append, List.map_cons,
      List.sum_cons, ih]

theorem readResult_length_le (arr : ArrayData) (lay : Layout) (field : String) (s : Subarray) :
    (readResult arr lay s).length * bytesPerCell arr.schema field ≤
      estimateMaxBufferSize arr field s := by
  have hlen : (readResult arr lay s).length =
      (arr.allCells.filter (fun c => cellInSubarray s c.coords)).length := by
    rw [readResult]
    exact (List.perm_insertionSort _ _).length_eq
  rw [hlen, ArrayData.allCells, length_filter_flatten, estimateMaxBufferSize,
    ← List.sum_map_mul_right]
  apply List.sum_le_sum
  intro f _
  by_cases hov : fragOverlaps f s = true
  · simp only [hov, if_true]
    exact mul_le_mul_right' (List.length_filter_le _ _) _
  · have hov2 : fragOverlaps f s = false := by
      revert hov
      cases fragOverlaps f s <;> simp
    have hemp : f.filter (fun c => cellInSubarray s c.coords) = [] := by
      cases hfe : f.filter (fun c => cellInSubarray s c.coords) with
      | nil => rfl
      | cons c rest =>
        exfalso
        have hcmem : c ∈ f.filter (fun c => cellInSubarray s c.coords) := by
          rw [hfe]
          simp
        obtain ⟨hcf, hcp⟩ := List.mem_filter.mp hcmem
        rw [fragOverlaps_of_mem hcf hcp] at hov2
        simp at hov2
    simp [hemp, hov2]

theorem mem_readResult {arr : ArrayData} {lay : Layout} {s : Subarray} {c : Cell}
    (hc : c ∈ readResult arr lay s) : cellInSubarray s c.coords = true := by
  rw [readResult] at hc
  have hm := (List.perm_insertionSort _ _).mem_iff.mp hc
  exact (List.mem_filter.mp hm).2

theorem mem_chunkOf {q : ReadQuery} {dataCap coordsCap : Nat} {c : Cell}
    (hc : c ∈ chunkOf q dataCap coordsCap) : cellInSubarray q.sub c.coords = true :=
  mem_readResult (List.mem_of_mem_drop (List.mem_of_mem_take hc))

theorem chunk_length_le (q : ReadQuery) (dataCap coordsCap : Nat) :
    (chunkOf q dataCap coordsCap).length ≤
      capCells q.arr.schema.dims.length dataCap coordsCap := by
  rw [chunkOf, List.length_take]
  exact min_le_left _ _

theorem chunk_coordsBuf_length (q : ReadQuery) (dataCap coordsCap : Nat)
    (hs : q.sub.length = q.arr.schema.dims.length) :
    (packCoords ((chunkOf q dataCap coordsCap).map Cell.coords)).length =
      (chunkOf q dataCap coordsCap).length * q.arr.schema.dims.length := by
  have h : ∀ l ∈ (chunkOf q dataCap coordsCap).map Cell.coords,
      l.length = q.arr.schema.dims.length := by
    intro l hl
    obtain ⟨c, hc, rfl⟩ := List.mem_map.mp hl
    rw [cellInSubarray_length (mem_chunkOf hc), hs]
  rw [packCoords, flatten_length_const h, List.length_map]

/-- C2 (confirmed): the max-buffer-size estimate never under-estimates - for
every array, field and valid (well-formed, within-domain) subarray it is at
least the bytes the full read result occupies for that field; moreover
buffers allocated at the estimates make the read complete in a single submit
with both returned sizes within the estimates. -/
theorem claim2_estimate_safe (arr : ArrayData) (field : String) (lay : Layout) (s : Subarray)
    (hv : subarrayValid s = true) (hdom : subarrayInDomain arr.schema.dims s = true)
    (hd : 0 < arr.schema.dims.length) :
    (readResult arr lay s).length * bytesPerCell arr.schema field ≤
      estimateMaxBufferSize arr field s ∧
    (readSubmit ⟨arr, lay, s, 0⟩ (estimateMaxBufferSize arr field s)
        (estimateMaxBufferSize arr TILEDB_COORDS s)).status = QueryStatus.completed ∧
    (readSubmit ⟨arr, lay, s, 0⟩ (estimateMaxBufferSize arr field s)
        (estimateMaxBufferSize arr TILEDB_COORDS s)).dataSize ≤
      estimateMaxBufferSize arr field s ∧
    (readSubmit ⟨arr, lay, s, 0⟩ (estimateMaxBufferSize arr field s)
        (estimateMaxBufferSize arr TILEDB_COORDS s)).coordsSize ≤
      estimateMaxBufferSize arr TILEDB_COORDS s := by
  have hs : s.length = arr.schema.dims.length := by
    have h2 := hdom
    rw [subarrayInDomain, Bool.and_eq_true] at h2
    exact of_decide_eq_true h2.1
  have key : ∀ fld, (readResult arr lay s).length * bytesPerCell arr.schema fld ≤
      estimateMaxBufferSize arr fld s := fun fld => readResult_length_le arr lay fld s
  have hBf : int32Bytes ≤ bytesPerCell arr.schema field := by
    rw [bytesPerCell]
    split
    · calc int32Bytes = 1 * int32Bytes := (one_mul _).symm
        _ ≤ arr.schema.dims.length * int32Bytes := mul_le_mul_right' hd _
    · exact le_refl _
  have hcoordsB : bytesPerCell arr.schema TILEDB_COORDS =
      arr.schema.dims.length * int32Bytes := by
    rw [bytesPerCell, if_pos rfl]
  have hdc : (readResult arr lay s).length * int32Bytes ≤
      estimateMaxBufferSize arr field s :=
    le_trans (mul_le_mul_left' hBf _) (key field)
  have hcc : (readResult arr lay s).length * (arr.schema.dims.length * int32Bytes) ≤
      estimateMaxBufferSize arr TILEDB_COORDS s := by
    have h2 := key TILEDB_COORDS
    rw [hcoordsB] at h2
    exact h2
  have hcap : (readResult arr lay s).length ≤
      capCells arr.schema.dims.length (estimateMaxBufferSize arr field s)
        (estimateMaxBufferSize arr TILEDB_COORDS s) := by
    rw [capCells, le_min_iff]
    constructor
    · rw [Nat.le_div_iff_mul_le (by decide)]
      exact hdc
    · rw [Nat.le_div_iff_mul_le (Nat.mul_pos hd (by decide))]
      exact hcc
  have hchunk : chunkOf ⟨arr, lay, s, 0⟩ (estimateMaxBufferSize arr field s)
      (estimateMaxBufferSize arr TILEDB_COORDS s) = readResult arr lay s := by
    rw [chunkOf]
    rw [List.drop_zero]
    exact List.take_of_length_le hcap
  have hcb : (packCoords ((chunkOf ⟨arr, lay, s, 0⟩ (estimateMaxBufferSize arr field s)
      (estimateMaxBufferSize arr TILEDB_COORDS s)).map Cell.coords)).length =
      (chunkOf ⟨arr, lay, s, 0⟩ (estimateMaxBufferSize arr field s)
        (estimateMaxBufferSize arr TILEDB_COORDS s)).length * arr.schema.dims.length :=
    chunk_coordsBuf_length _ _ _ hs
  rw [readSubmit_valid _ _ _ hv hdom]
  refine ⟨key field, ?_, ?_, ?_⟩
  · show (if (readResult arr lay s).length ≤ 0 + _ then QueryStatus.completed
      else QueryStatus.incomplete) = QueryStatus.completed
    rw [hchunk, if_pos (by omega)]
  · show (chunkOf ⟨arr, lay, s, 0⟩ _ _).length * int32Bytes ≤ _
    rw [hchunk]
    exact hdc
  · show (packCoords ((chunkOf ⟨arr, lay, s, 0⟩ _ _).map Cell.coords)).length * int32Bytes ≤ _
    rw [hcb, hchunk, mul_assoc]
    exact hcc

/-- C2 witness: the estimate claim instantiated at the example's written
array, attribute a, and the read subarray rows in [1,2], cols in [2,4]. -/
theorem claim2_witness :
    (readResult writtenArray Layout.rowMajor readSubarray).length *
        bytesPerCell writtenArray.schema attr_a ≤
      estimateMaxBufferSize writtenArray attr_a readSubarray ∧
    (readSubmit ⟨writtenArray, Layout.rowMajor, readSubarray, 0⟩
        (estimateMaxBufferSize writtenArray attr_a readSubarray)
        (estimateMaxBufferSize writtenArray TILEDB_COORDS readSubarray)).status =
      QueryStatus.completed ∧
    (readSubmit ⟨writtenArray, Layout.rowMajor, readSubarray, 0⟩
        (estimateMaxBufferSize writtenArray attr_a readSubarray)
        (estimateMaxBufferSize writtenArray TILEDB_COORDS readSubarray)).dataSize ≤
      estimateMaxBufferSize writtenArray attr_a readSubarray ∧
    (readSubmit ⟨writtenArray, Layout.rowMajor, readSubarray, 0⟩
        (estimateMaxBufferSize writtenArray attr_a readSubarray)
        (estimateMaxBufferSize writtenArray TILEDB_COORDS readSubarray)).coordsSize ≤
      estimateMaxBufferSize writtenArray TILEDB_COORDS readSubarray :=
  claim2_estimate_safe writtenArray attr_a Layout.rowMajor readSubarray
    (by decide) (by decide) (by decide)

/-- C5 (confirmed): after a read submit over a valid subarray, each bound
buffer's size field equals the bytes actually produced into that buffer (and
never exceeds the supplied capacity), and the number of result cells equals
the attribute buffer's returned size divided by the scalar size. -/
theorem claim5_sizes_actual (q : ReadQuery) (dataCap coordsCap : Nat)
    (hv : subarrayValid q.sub = true) (hs : q.sub.length = q.arr.schema.dims.length) :
    (readSubmit q dataCap coordsCap).dataSize =
      (readSubmit q dataCap coordsCap).dataBuf.length * int32Bytes ∧
    (readSubmit q dataCap coordsCap).coordsSize =
      (readSubmit q dataCap coordsCap).coordsBuf.length * int32Bytes ∧
    (readSubmit q dataCap coordsCap).cells.length =
      (readSubmit q dataCap coordsCap).dataSize / int32Bytes ∧
    (readSubmit q dataCap coordsCap).coordsBuf.length =
      (readSubmit q dataCap coordsCap).cells.length * q.arr.schema.dims.length ∧
    (readSubmit q dataCap coordsCap).dataSize ≤ dataCap ∧
    (readSubmit q dataCap coordsCap).coordsSize ≤ coordsCap := by
  cases hdd : subarrayInDomain q.arr.schema.dims q.sub with
  | false =>
    rw [readSubmit_failed q dataCap coordsCap (by rw [hv, Bool.true_and, hdd])]
    exact ⟨by simp, by simp, by simp, by simp, Nat.zero_le _, Nat.zero_le _⟩
  | true =>
  have hcb := chunk_coordsBuf_length q dataCap coordsCap hs
  have hchle := chunk_length_le q dataCap coordsCap
  rw [readSubmit_valid _ _ _ hv hdd]
  refine ⟨?_, ?_, ?_, ?_, ?_, ?_⟩
  · show (chunkOf q dataCap coordsCap).length * int32Bytes =
      ((chunkOf q dataCap coordsCap).map Cell.value).length * int32Bytes
    rw [List.length_map]
  · rfl
  · show (chunkOf q dataCap coordsCap).length =
      (chunkOf q dataCap coordsCap).length * int32Bytes / int32Bytes
    rw [Nat.mul_div_cancel _ (by decide : 0 < int32Bytes)]
  · exact hcb
  · show (chunkOf q dataCap coordsCap).length * int32Bytes ≤ dataCap
    calc (chunkOf q dataCap coordsCap).length * int32Bytes
        ≤ dataCap / int32Bytes * int32Bytes :=
          mul_le_mul_right' (le_trans hchle (min_le_left _ _)) _
      _ ≤ dataCap := Nat.div_mul_le_self dataCap int32Bytes
  · show (packCoords ((chunkOf q dataCap coordsCap).map Cell.coords)).length * int32Bytes ≤
      coordsCap
    rw [hcb, mul_assoc]
    calc (chunkOf q dataCap coordsCap).length * (q.arr.schema.dims.length * int32Bytes)
        ≤ coordsCap / (q.arr.schema.dims.length * int32Bytes) *
            (q.arr.schema.dims.length * int32Bytes) :=
          mul_le_mul_right' (le_trans hchle (min_le_right _ _)) _
      _ ≤ coordsCap := Nat.div_mul_le_self coordsCap _

/-- C5 witness: the size claim instantiated at the example's read query with
the estimate-sized capacities 12 and 24 bytes. -/
theorem claim5_witness :
    (readSubmit ⟨writtenArray, Layout.rowMajor, readSubarray, 0⟩ 12 24).dataSize =
      (readSubmit ⟨writtenArray, Layout.rowMajor, readSubarray, 0⟩ 12 24).dataBuf.length *
        int32Bytes ∧
    (readSubmit ⟨writtenArray, Layout.rowMajor, readSubarray, 0⟩ 12 24).coordsSize =
      (readSubmit ⟨writtenArray, Layout.rowMajor, readSubarray, 0⟩ 12 24).coordsBuf.length *
        int32Bytes ∧
    (readSubmit ⟨writtenArray, Layout.rowMajor, readSubarray, 0⟩ 12 24).cells.length =
      (readSubmit ⟨writtenArray, Layout.rowMajor, readSubarray, 0⟩ 12 24).dataSize /
        int32Bytes ∧
    (readSubmit ⟨writtenArray, Layout.rowMajor, readSubarray, 0⟩ 12 24).coordsBuf.length =
      (readSubmit ⟨writtenArray, Layout.rowMajor, readSubarray, 0⟩ 12 24).cells.length *
        writtenArray.schema.dims.length ∧
    (readSubmit ⟨writtenArray, Layout.rowMajor, readSubarray, 0⟩ 12 24).dataSize ≤ 12 ∧
    (readSubmit ⟨writtenArray, Layout.rowMajor, readSubarray, 0⟩ 12 24).coordsSize ≤ 24 :=
  claim5_sizes_actual ⟨writtenArray, Layout.rowMajor, readSubarray, 0⟩ 12 24
    (by decide) (by decide)

theorem chunkOf_mk (arr : ArrayData) (lay : Layout) (s : Subarray) (cur : Nat)
    (dataCap coordsCap : Nat) :
    chunkOf ⟨arr, lay, s, cur⟩ dataCap coordsCap =
      ((readResult arr lay s).drop cur).take
        (capCells arr.schema.dims.length dataCap coordsCap) := rfl

theorem readSubmit_status_mk (arr : ArrayData) (lay : Layout) (s : Subarray) (cur : Nat)
    (dataCap coordsCap : Nat) (hv : subarrayValid s = true)
    (hd : subarrayInDomain arr.schema.dims s = true) :
    (readSubmit ⟨arr, lay, s, cur⟩ dataCap coordsCap).status =
      if (readResult arr lay s).length ≤
          cur + (chunkOf ⟨arr, lay, s, cur⟩ dataCap coordsCap).length
        then .completed else .incomplete := by
  rw [readSubmit_status ⟨arr, lay, s, cur⟩ dataCap coordsCap hv hd]

theorem readSubmit_cells_mk (arr : ArrayData) (lay : Layout) (s : Subarray) (cur : Nat)
    (dataCap coordsCap : Nat) (hv : subarrayValid s = true)
    (hd : subarrayInDomain arr.schema.dims s = true) :
    (readSubmit ⟨arr, lay, s, cur⟩ dataCap coordsCap).cells =
      chunkOf ⟨arr, lay, s, cur⟩ dataCap coordsCap := by
  rw [readSubmit_cells ⟨arr, lay, s, cur⟩ dataCap coordsCap hv hd]

theorem readSubmit_next_mk (arr : ArrayData) (lay : Layout) (s : Subarray) (cur : Nat)
    (dataCap coordsCap : Nat) (hv : subarrayValid s = true)
    (hd : subarrayInDomain arr.schema.dims s = true) :
    (readSubmit ⟨arr, lay, s, cur⟩ dataCap coordsCap).next =
      ⟨arr, lay, s, cur + (chunkOf ⟨arr, lay, s, cur⟩ dataCap coordsCap).length⟩ := by
  rw [readSubmit_next ⟨arr, lay, s, cur⟩ dataCap coordsCap hv hd]

theorem drainRead_complete (arr : ArrayData) (lay : Layout) (s : Subarray)
    (dataCap coordsCap : Nat) (hv : subarrayValid s = true)
    (hdom : subarrayInDomain arr.schema.dims s = true) :
    ∀ (fuel cursor : Nat),
      (readResult arr lay s).length ≤
        cursor + fuel * capCells arr.schema.dims.length dataCap coordsCap →
      drainRead dataCap coordsCap fuel ⟨arr, lay, s, cursor⟩ =
        (readResult arr lay s).drop cursor := by
  intro fuel
  induction fuel with
  | zero =>
    intro cursor hle
    rw [Nat.zero_mul, Nat.add_zero] at hle
    simp only [drainRead]
    rw [List.drop_eq_nil_of_le hle]
  | succ m ih =>
    intro cursor hle
    have hchL : (chunkOf ⟨arr, lay, s, cursor⟩ dataCap coordsCap).length =
        min (capCells arr.schema.dims.length dataCap coordsCap)
          ((readResult arr lay s).length - cursor) := by
      rw [chunkOf_mk, List.length_take, List.length_drop]
    by_cases hcase : (readResult arr lay s).length ≤
        cursor + (chunkOf ⟨arr, lay, s, cursor⟩ dataCap coordsCap).length
    · have hstat : (readSubmit ⟨arr, lay, s, cursor⟩ dataCap coordsCap).status =
          QueryStatus.completed := by
        rw [readSubmit_status_mk arr lay s cursor dataCap coordsCap hv hdom, if_pos hcase]
      have hlendrop : ((readResult arr lay s).drop cursor).length ≤
          capCells arr.schema.dims.length dataCap coordsCap := by
        rw [List.length_drop]
        omega
      simp only [drainRead, hstat, readSubmit_cells_mk arr lay s cursor dataCap coordsCap hv hdom]
      rw [chunkOf_mk]
      exact List.take_of_length_le hlendrop
    · have hstat : (readSubmit ⟨arr, lay, s, cursor⟩ dataCap coordsCap).status =
          QueryStatus.incomplete := by
        rw [readSubmit_status_mk arr lay s cursor dataCap coordsCap hv hdom, if_neg hcase]
      have hchk : (chunkOf ⟨arr, lay, s, cursor⟩ dataCap coordsCap).length =
          capCells arr.schema.dims.length dataCap coordsCap := by omega
      simp only [drainRead, hstat, readSubmit_cells_mk arr lay s cursor dataCap coordsCap hv hdom,
        readSubmit_next_mk arr lay s cursor dataCap coordsCap hv hdom]
      rw [hchk]
      rw [Nat.succ_mul] at hle
      rw [ih (cursor + capCells arr.schema.dims.length dataCap coordsCap) (by omega)]
      rw [chunkOf_mk]
      rw [← List.drop_drop]
      exact List.take_append_drop _ _

/-- C7 (confirmed): when the bound buffers hold fewer cells than the full
result set, submit returns INCOMPLETE with the first capacity-many result
cells in layout order; the next submit continues from the saved cursor (and,
whenever the remainder fits, returns exactly the remaining cells with status
COMPLETED); and the concatenation of the cells over repeated submits is the
full result set - no duplicates, no omissions. -/
theorem claim7_incomplete_resume (arr : ArrayData) (lay : Layout) (s : Subarray)
    (dataCap coordsCap : Nat) (hv : subarrayValid s = true)
    (hdom : subarrayInDomain arr.schema.dims s = true)
    (hk : 0 < capCells arr.schema.dims.length dataCap coordsCap)
    (hlt : capCells arr.schema.dims.length dataCap coordsCap <
      (readResult arr lay s).length) :
    (readSubmit ⟨arr, lay, s, 0⟩ dataCap coordsCap).status = QueryStatus.incomplete ∧
    (readSubmit ⟨arr, lay, s, 0⟩ dataCap coordsCap).cells =
      (readResult arr lay s).take (capCells arr.schema.dims.length dataCap coordsCap) ∧
    ((readResult arr lay s).length ≤ 2 * capCells arr.schema.dims.length dataCap coordsCap →
      (readSubmit (readSubmit ⟨arr, lay, s, 0⟩ dataCap coordsCap).next dataCap
          coordsCap).cells =
        (readResult arr lay s).drop (capCells arr.schema.dims.length dataCap coordsCap) ∧
      (readSubmit (readSubmit ⟨arr, lay, s, 0⟩ dataCap coordsCap).next dataCap
          coordsCap).status = QueryStatus.completed) ∧
    drainRead dataCap coordsCap (readResult arr lay s).length ⟨arr, lay, s, 0⟩ =
      readResult arr lay s := by
  have hch0 : chunkOf ⟨arr, lay, s, 0⟩ dataCap coordsCap =
      (readResult arr lay s).take (capCells arr.schema.dims.length dataCap coordsCap) := by
    rw [chunkOf_mk, List.drop_zero]
  have hch0len : (chunkOf ⟨arr, lay, s, 0⟩ dataCap coordsCap).length =
      capCells arr.schema.dims.length dataCap coordsCap := by
    rw [hch0, List.length_take]
    omega
  refine ⟨?_, ?_, ?_, ?_⟩
  · rw [readSubmit_status_mk arr lay s 0 dataCap coordsCap hv hdom,
      if_neg (by rw [hch0len]; omega)]
  · rw [readSubmit_cells_mk arr lay s 0 dataCap coordsCap hv hdom, hch0]
  · intro h2k
    have hq1 : (readSubmit ⟨arr, lay, s, 0⟩ dataCap coordsCap).next =
        ⟨arr, lay, s, capCells arr.schema.dims.length dataCap coordsCap⟩ := by
      rw [readSubmit_next_mk arr lay s 0 dataCap coordsCap hv hdom, hch0len]
      rw [Nat.zero_add]
    have hch1 : chunkOf ⟨arr, lay, s, capCells arr.schema.dims.length dataCap coordsCap⟩
        dataCap coordsCap =
        (readResult arr lay s).drop (capCells arr.schema.dims.length dataCap coordsCap) := by
      rw [chunkOf_mk]
      apply List.take_of_length_le
      rw [List.length_drop]
      omega
    constructor
    · rw [hq1, readSubmit_cells_mk arr lay s _ dataCap coordsCap hv hdom, hch1]
    · rw [hq1, readSubmit_status_mk arr lay s _ dataCap coordsCap hv hdom,
        if_pos (by rw [hch1, List.length_drop]; omega)]
  · have hfuel : (readResult arr lay s).length ≤
        0 + (readResult arr lay s).length *
          capCells arr.schema.dims.length dataCap coordsCap := by
      have h1 : (readResult arr lay s).length ≤
          (readResult arr lay s).length *
            capCells arr.schema.dims.length dataCap coordsCap :=
        le_mul_of_one_le_right (Nat.zero_le _) hk
      omega
    rw [drainRead_complete arr lay s dataCap coordsCap hv hdom _ 0 hfuel, List.drop_zero]

/-- C7 witness: the INCOMPLETE/resume claim at the example's written array
with buffers of 4 and 8 bytes - room for one cell per submit against a
two-cell result. -/
theorem claim7_witness :
    (readSubmit ⟨writtenArray, Layout.rowMajor, readSubarray, 0⟩ 4 8).status =
      QueryStatus.incomplete ∧
    (readSubmit ⟨writtenArray, Layout.rowMajor, readSubarray, 0⟩ 4 8).cells =
      (readResult writtenArray Layout.rowMajor readSubarray).take
        (capCells writtenArray.schema.dims.length 4 8) ∧
    ((readResult writtenArray Layout.rowMajor readSubarray).length ≤
        2 * capCells writtenArray.schema.dims.length 4 8 →
      (readSubmit (readSubmit ⟨writtenArray, Layout.rowMajor, readSubarray, 0⟩ 4 8).next
          4 8).cells =
        (readResult writtenArray Layout.rowMajor readSubarray).drop
          (capCells writtenArray.schema.dims.length 4 8) ∧
      (readSubmit (readSubmit ⟨writtenArray, Layout.rowMajor, readSubarray, 0⟩ 4 8).next
          4 8).status = QueryStatus.completed) ∧
    drainRead 4 8 (readResult writtenArray Layout.rowMajor readSubarray).length
      ⟨writtenArray, Layout.rowMajor, readSubarray, 0⟩ =
      readResult writtenArray Layout.rowMajor readSubarray :=
  claim7_incomplete_resume writtenArray Layout.rowMajor readSubarray 4 8
    (by decide) (by decide) (by decide) (by decide)

end TileDB
